import Mathlib

/-!
# FFT::eval_cpu (mlx/backend/cpu/fft.cpp)

A shallow embedding of the CPU evaluation routine of the FFT primitive:
byte strides, the iteration shape, the inverse scale, the registration of the
arrays with the command encoder and the three-way kernel dispatch.

Conventions of the embedding.
* Machine integers are `Nat`/`Int` with the wrap-around of each C++ conversion
  written out (`to_size_t`, `to_int`, `to_ptrdiff_t`).
* `float` values are idealised: a finite value is an exact rational (rounding is
  not modelled), and division by zero follows IEEE-754 (`FloatVal.posInf`, ...).
* An out-of-range `shape[y]` is undefined behaviour in C++; the embedding
  returns `none` there.
* The command encoder is an explicit event log that `eval_cpu` extends.
-/

namespace mlx.core

/-! ## Data model -/

/-- Modelled from the spec: the `Dtype` declaration (mlx/dtype.h) is not part of
the translated file, which only compares dtypes with the two constants `float32`
and `complex64` and has a last branch for every remaining combination. Every
other element type of the runtime (booleans, integers, half floats, ...) is
`other k`. -/
inductive Dtype where
  | float32
  | complex64
  | other (code : Nat)
  deriving DecidableEq, Repr

/-- Modelled from the spec: the `array` class (mlx/array.h) is not part of the
translated file. Only what `eval_cpu` reads is kept: `shape` (ordered sequence of
non-negative dimension sizes), `strides` (signed per-dimension element strides),
`dtype`, `itemsize` (bytes per element, a `size_t`) and `data`, the address of
the buffer the array currently points to. -/
structure array where
  shape : List Nat
  strides : List Int
  dtype : Dtype
  itemsize : Nat
  data : Nat
  deriving DecidableEq, Repr

/-- Idealised `float`: an exact rational, or one of the IEEE-754 specials that a
division can produce. -/
inductive FloatVal where
  | real (q : ℚ)
  | posInf
  | negInf
  | nan
  deriving DecidableEq

/-! ## Integer conversions -/

/-- Conversion of an integer value to `size_t` (64-bit unsigned): reduction
modulo `2^64`. -/
def to_size_t (n : Int) : Nat := (n % 18446744073709551616).toNat

/-- Conversion of an integer value to `int` (32-bit signed, wrapping). -/
def to_int (n : Int) : Int := (n + 2147483648) % 4294967296 - 2147483648

/-- Conversion of an integer value to `std::ptrdiff_t` (64-bit signed,
wrapping). -/
def to_ptrdiff_t (n : Int) : Int :=
  (n + 9223372036854775808) % 18446744073709551616 - 9223372036854775808

/-- Multiplication of two `size_t` values. -/
def mul_size_t (a b : Nat) : Nat := (a * b) % 18446744073709551616

/-! ## Byte strides (fft.cpp lines 14-23) -/

/-- One step of `for (auto& s : strides) s *= itemsize;` with `s` a
`std::ptrdiff_t` and `itemsize` a `size_t`: the product is formed in `size_t`
and converted back to `std::ptrdiff_t`. -/
def scale_stride (itemsize : Nat) (s : Int) : Int :=
  to_ptrdiff_t (Int.ofNat (mul_size_t (to_size_t s) itemsize))

/-- The vector `strides_in` / `strides_out`: a copy of the element strides, each
entry multiplied in place by the item size. -/
def byte_strides (a : array) : List Int :=
  a.strides.map (scale_stride a.itemsize)

/-! ## Iteration shape (fft.cpp lines 27-32) -/

/-- The vector `shape`: the output shape when the output dtype is `float32`,
the input shape otherwise. -/
def iteration_shape (inp out : array) : List Nat :=
  if out.dtype = Dtype.float32 then out.shape else inp.shape

/-! ## Scale (fft.cpp lines 34-41) -/

/-- The binary operation handed to `std::accumulate`: `x` is the `int`
accumulator, `y` an axis. `x * shape[y]` is a `size_t` product, stored back into
the `int` accumulator. `none` when `y` is not an index of `shape`. -/
def accumulate_op (shape : List Nat) (x : Int) (y : Nat) : Option Int :=
  match shape.get? y with
  | none => none
  | some d => some (to_int (Int.ofNat (mul_size_t (to_size_t x) d)))

/-- The value of `size_t nelem = std::accumulate(axes_.begin(), axes_.end(), 1, op)`:
a left fold from the `int` value `1`, the `int` result widened to `size_t`. -/
def compute_nelem (shape : List Nat) (axes : List Nat) : Option Nat :=
  match axes.foldlM (accumulate_op shape) (1 : Int) with
  | none => none
  | some r => some (to_size_t r)

/-- Division `x / n` of a `float` by a `size_t` converted to `float`. -/
def FloatVal.div_size_t : FloatVal → Nat → FloatVal
  | FloatVal.real q, n =>
      if n = 0 then
        (if q = 0 then FloatVal.nan else if 0 < q then FloatVal.posInf else FloatVal.negInf)
      else FloatVal.real (q / (n : ℚ))
  | FloatVal.posInf, _ => FloatVal.posInf
  | FloatVal.negInf, _ => FloatVal.negInf
  | FloatVal.nan, _ => FloatVal.nan

/-- The variable `scale`: `1.0f`, divided by `nelem` when the transform is
inverse. -/
def compute_scale (shape : List Nat) (axes : List Nat) (inverse : Bool) :
    Option FloatVal :=
  if inverse then
    match compute_nelem shape axes with
    | none => none
    | some nelem => some (FloatVal.div_size_t (FloatVal.real 1) nelem)
  else some (FloatVal.real 1)

/-! ## Deferred tasks and the encoder -/

/-- The three pocketfft entry points. -/
inductive Kernel where
  | c2c
  | r2c
  | c2r
  deriving DecidableEq, Repr

/-- A call of a pocketfft entry point with its eight arguments, in order. -/
structure KernelCall where
  kernel : Kernel
  shape : List Nat
  stride_in : List Int
  stride_out : List Int
  axes : List Nat
  forward : Bool
  data_in : Nat
  data_out : Nat
  fct : FloatVal
  deriving DecidableEq

/-- The lambda handed to `encoder.dispatch`: its captures, and which kernel its
body calls. -/
structure Closure where
  kernel : Kernel
  shape : List Nat
  strides_in : List Int
  strides_out : List Int
  axes : List Nat
  inverse : Bool
  in_ptr : Nat
  out_ptr : Nat
  scale : FloatVal
  deriving DecidableEq

/-- Running the lambda: the kernel call its body makes. The direction argument
is `!inverse`. -/
def Closure.call (c : Closure) : KernelCall :=
  { kernel := c.kernel
    shape := c.shape
    stride_in := c.strides_in
    stride_out := c.strides_out
    axes := c.axes
    forward := !c.inverse
    data_in := c.in_ptr
    data_out := c.out_ptr
    fct := c.scale }

/-- The calls `eval_cpu` makes on the command encoder. -/
inductive Event where
  | set_input_array (a : array)
  | set_output_array (a : array)
  | dispatch (task : Closure)
  deriving DecidableEq

/-- The message of the `std::runtime_error` thrown by the last branch. -/
def unexpected_types_msg : String :=
  "[FFT] Received unexpected input and output type combination."

/-- What a call of `eval_cpu` leaves behind: the output array (its data pointer
set), the encoder log, and the message of the exception if one was thrown. -/
structure Outcome where
  out : array
  encoder : List Event
  error : Option String
  deriving DecidableEq

/-- The routine `FFT::eval_cpu(inputs, out)` with `inp = inputs[0]`, the members
`axes_` and `inverse_`, the buffer `buf` returned by
`allocator::malloc(out.nbytes())` and the encoder log `enc` on entry.
`none` stands for undefined behaviour (an axis outside the iteration shape). -/
def eval_cpu (inp out : array) (axes : List Nat) (inverse : Bool) (buf : Nat)
    (enc : List Event) : Option Outcome :=
  let strides_in := byte_strides inp
  let strides_out := byte_strides out
  let out := { out with data := buf }
  let shape := iteration_shape inp out
  match compute_scale shape axes inverse with
  | none => none
  | some scale =>
    let enc := enc ++ [Event.set_input_array inp]
    let enc := enc ++ [Event.set_output_array out]
    if inp.dtype = Dtype.complex64 ∧ out.dtype = Dtype.complex64 then
      some
        { out := out
          encoder := enc ++ [Event.dispatch
            { kernel := Kernel.c2c, shape := shape, strides_in := strides_in,
              strides_out := strides_out, axes := axes, inverse := inverse,
              in_ptr := inp.data, out_ptr := out.data, scale := scale }]
          error := none }
    else if inp.dtype = Dtype.float32 ∧ out.dtype = Dtype.complex64 then
      some
        { out := out
          encoder := enc ++ [Event.dispatch
            { kernel := Kernel.r2c, shape := shape, strides_in := strides_in,
              strides_out := strides_out, axes := axes, inverse := inverse,
              in_ptr := inp.data, out_ptr := out.data, scale := scale }]
          error := none }
    else if inp.dtype = Dtype.complex64 ∧ out.dtype = Dtype.float32 then
      some
        { out := out
          encoder := enc ++ [Event.dispatch
            { kernel := Kernel.c2r, shape := shape, strides_in := strides_in,
              strides_out := strides_out, axes := axes, inverse := inverse,
              in_ptr := inp.data, out_ptr := out.data, scale := scale }]
          error := none }
    else
      some { out := out, encoder := enc, error := some unexpected_types_msg }

/-! ## Reference definitions that follow the wording of the specification -/

/-- The true product of `shape[a]` over the listed axes, one factor per
occurrence of an axis. -/
def axes_product (shape : List Nat) (axes : List Nat) : Nat :=
  (axes.map (fun y => shape.getD y 0)).prod

/-- A natural number reduced modulo `2^32`, read as a signed 32-bit value and
widened to an unsigned 64-bit value. -/
def spec_truncate (p : Nat) : Nat :=
  if p % 4294967296 < 2147483648 then p % 4294967296
  else p % 4294967296 + (18446744073709551616 - 4294967296)

/-- Every listed axis is an index of the shape. -/
def axes_in_range (shape : List Nat) (axes : List Nat) : Prop :=
  ∀ y ∈ axes, y < shape.length

instance (shape axes : List Nat) : Decidable (axes_in_range shape axes) := by
  unfold axes_in_range
  infer_instance

/-- The kind table of the specification: the kernel named for a dtype pair
(input dtype, output dtype), if the pair is one of the three supported ones. -/
def spec_kind : Dtype → Dtype → Option Kernel
  | Dtype.complex64, Dtype.complex64 => some Kernel.c2c
  | Dtype.float32, Dtype.complex64 => some Kernel.r2c
  | Dtype.complex64, Dtype.float32 => some Kernel.c2r
  | _, _ => none

/-- The dtype pair is one of the three supported ones. -/
def supported (i o : Dtype) : Prop :=
  (i = Dtype.complex64 ∧ o = Dtype.complex64) ∨
  (i = Dtype.float32 ∧ o = Dtype.complex64) ∨
  (i = Dtype.complex64 ∧ o = Dtype.float32)

instance (i o : Dtype) : Decidable (supported i o) := by
  unfold supported
  infer_instance

/-- The tasks submitted in an encoder log, in order of submission. -/
def dispatched : List Event → List Closure
  | [] => []
  | Event.dispatch c :: es => c :: dispatched es
  | Event.set_input_array _ :: es => dispatched es
  | Event.set_output_array _ :: es => dispatched es

/-- The events a call appended to the encoder log `enc` it started from. -/
def new_events (enc : List Event) (r : Outcome) : List Event :=
  r.encoder.drop enc.length

/-- The lambda that a supported branch of `eval_cpu` hands to the encoder, named
by its captures: kernel `k`, the locals computed from `inp` and `out`, the
members `axes` and `inverse`, the two data pointers and the scale `s`. -/
def branch_task (k : Kernel) (inp out : array) (axes : List Nat) (inverse : Bool)
    (buf : Nat) (s : FloatVal) : Closure :=
  { kernel := k, shape := iteration_shape inp out, strides_in := byte_strides inp,
    strides_out := byte_strides out, axes := axes, inverse := inverse,
    in_ptr := inp.data, out_ptr := buf, scale := s }

/-- The byte stride of a dimension is representable in `std::ptrdiff_t`. -/
def stride_fits (itemsize : Nat) (s : Int) : Prop :=
  -9223372036854775808 ≤ s * (itemsize : Int) ∧ s * (itemsize : Int) < 9223372036854775808

instance (itemsize : Nat) (s : Int) : Decidable (stride_fits itemsize s) := by
  unfold stride_fits
  infer_instance

/-! ## Concrete arrays used to instantiate the theorems -/

/-- A length-8 real array. -/
def real8 : array :=
  { shape := [8], strides := [1], dtype := Dtype.float32, itemsize := 4, data := 4096 }

/-- A length-5 complex array (the half spectrum of a length-8 real array). -/
def half5 : array :=
  { shape := [5], strides := [1], dtype := Dtype.complex64, itemsize := 8, data := 8192 }

/-- A 4 x 4 complex array, row contiguous. -/
def grid4 : array :=
  { shape := [4, 4], strides := [4, 1], dtype := Dtype.complex64, itemsize := 8, data := 12288 }

/-- A 4 x 4 complex view with a reversed first axis and a broadcast second axis. -/
def view4 : array :=
  { shape := [4, 4], strides := [-4, 0], dtype := Dtype.complex64, itemsize := 8, data := 12384 }

/-- A 65536 x 32768 complex array, row contiguous (2^31 elements). -/
def big : array :=
  { shape := [65536, 32768], strides := [32768, 1], dtype := Dtype.complex64, itemsize := 8,
    data := 4096 }

/-- A complex array with one dimension of size zero. -/
def empty0 : array :=
  { shape := [0], strides := [1], dtype := Dtype.complex64, itemsize := 8, data := 4096 }

/-- A length-8 array of an element type other than float32 and complex64. -/
def other8 : array :=
  { shape := [8], strides := [1], dtype := Dtype.other 0, itemsize := 2, data := 16384 }

/-! ## Arithmetic of the conversions -/

theorem to_int_congr {a b : Int} (h : a % 4294967296 = b % 4294967296) :
    to_int a = to_int b := by
  unfold to_int
  omega

theorem to_int_emod (a : Int) : to_int a % 4294967296 = a % 4294967296 := by
  unfold to_int
  omega

theorem to_int_idem (a : Int) : to_int (to_int a) = to_int a :=
  to_int_congr (to_int_emod a)

theorem to_int_of_small {a : Int} (h0 : 0 ≤ a) (h1 : a < 2147483648) : to_int a = a := by
  unfold to_int
  omega

theorem ofNat_mul_size_t (x : Int) (d : Nat) :
    Int.ofNat (mul_size_t (to_size_t x) d) = (x * (d : Int)) % 18446744073709551616 := by
  unfold mul_size_t to_size_t
  have h : ((x % 18446744073709551616).toNat : Int) = x % 18446744073709551616 :=
    Int.toNat_of_nonneg (Int.emod_nonneg _ (by norm_num))
  simp only [Int.ofNat_eq_coe]
  push_cast
  rw [h, Int.mul_emod (x % 18446744073709551616), Int.emod_emod, ← Int.mul_emod]

theorem to_int_accumulate (x : Int) (d : Nat) :
    to_int (Int.ofNat (mul_size_t (to_size_t x) d)) = to_int (x * (d : Int)) := by
  rw [ofNat_mul_size_t]
  apply to_int_congr
  omega

theorem to_int_mul_left (a b : Int) : to_int (to_int a * b) = to_int (a * b) := by
  apply to_int_congr
  rw [Int.mul_emod, to_int_emod, ← Int.mul_emod]

theorem to_size_t_to_int (p : Nat) : to_size_t (to_int (p : Int)) = spec_truncate p := by
  unfold to_size_t to_int spec_truncate
  split <;> omega

theorem accumulate_op_of_lt (shape : List Nat) (x : Int) {y : Nat} (h : y < shape.length) :
    accumulate_op shape x y = some (to_int (x * ((shape.getD y 0 : Nat) : Int))) := by
  unfold accumulate_op
  have hg : shape.get? y = some (shape.getD y 0) := by
    simp [List.getD, List.getElem?_eq_getElem h]
  rw [hg]
  simp only [to_int_accumulate]

theorem foldlM_accumulate_op (shape : List Nat) :
    ∀ (axes : List Nat) (init : Int), (∀ y ∈ axes, y < shape.length) →
      to_int init = init →
      axes.foldlM (accumulate_op shape) init
        = some (to_int (init * ((axes_product shape axes : Nat) : Int))) := by
  intro axes
  induction axes with
  | nil =>
    intro init _ hinit
    simp [axes_product, hinit]
  | cons y ys ih =>
    intro init hr hinit
    have hy : y < shape.length := hr y (List.mem_cons_self _ _)
    have hys : ∀ z ∈ ys, z < shape.length := fun z hz => hr z (List.mem_cons_of_mem _ hz)
    rw [List.foldlM_cons, accumulate_op_of_lt shape init hy]
    simp only [Option.some_bind, Option.bind_eq_bind]
    rw [ih _ hys (to_int_idem _), to_int_mul_left]
    have hp : axes_product shape (y :: ys) = shape.getD y 0 * axes_product shape ys := by
      simp [axes_product]
    rw [hp]
    push_cast
    rw [mul_assoc]

theorem compute_nelem_eq (shape axes : List Nat) (h : ∀ y ∈ axes, y < shape.length) :
    compute_nelem shape axes = some (spec_truncate (axes_product shape axes)) := by
  unfold compute_nelem
  rw [foldlM_accumulate_op shape axes 1 h (by decide)]
  simp only [one_mul, to_size_t_to_int]

theorem spec_truncate_of_lt {p : Nat} (h : p < 2147483648) : spec_truncate p = p := by
  unfold spec_truncate
  split <;> omega

theorem axes_product_perm (shape : List Nat) {l₁ l₂ : List Nat} (h : l₁.Perm l₂) :
    axes_product shape l₁ = axes_product shape l₂ := by
  unfold axes_product
  exact (h.map _).prod_eq

theorem axes_product_replicate (shape : List Nat) (y k : Nat) :
    axes_product shape (List.replicate k y) = (shape.getD y 0) ^ k := by
  simp [axes_product]

/-! ## The scale -/

theorem compute_scale_forward (shape axes : List Nat) :
    compute_scale shape axes false = some (FloatVal.real 1) := by
  simp [compute_scale]

theorem compute_scale_inverse (shape axes : List Nat) (h : axes_in_range shape axes) :
    compute_scale shape axes true
      = some (FloatVal.div_size_t (FloatVal.real 1) (spec_truncate (axes_product shape axes))) := by
  simp [compute_scale, compute_nelem_eq shape axes h]

theorem compute_scale_defined (shape axes : List Nat) (inverse : Bool)
    (h : inverse = true → axes_in_range shape axes) :
    ∃ s, compute_scale shape axes inverse = some s := by
  cases inverse with
  | false => exact ⟨_, compute_scale_forward shape axes⟩
  | true => exact ⟨_, compute_scale_inverse shape axes (h rfl)⟩

theorem div_size_t_one_of_pos {n : Nat} (h : 0 < n) :
    FloatVal.div_size_t (FloatVal.real 1) n = FloatVal.real (1 / (n : ℚ)) := by
  have hn : n ≠ 0 := Nat.pos_iff_ne_zero.mp h
  simp [FloatVal.div_size_t, hn]

theorem div_size_t_one_zero :
    FloatVal.div_size_t (FloatVal.real 1) 0 = FloatVal.posInf := by
  simp [FloatVal.div_size_t]

/-! ## The dispatch -/

theorem spec_kind_isSome_iff (i o : Dtype) : (∃ k, spec_kind i o = some k) ↔ supported i o := by
  unfold supported
  cases i <;> cases o <;> simp [spec_kind]

theorem spec_kind_eq_none_iff (i o : Dtype) : spec_kind i o = none ↔ ¬ supported i o := by
  unfold supported
  cases i <;> cases o <;> simp [spec_kind]

theorem eval_cpu_dispatch_branch (inp out : array) (axes : List Nat) (inverse : Bool) (buf : Nat)
    (enc : List Event) {s : FloatVal} {k : Kernel}
    (hs : compute_scale (iteration_shape inp out) axes inverse = some s)
    (hk : spec_kind inp.dtype out.dtype = some k) :
    eval_cpu inp out axes inverse buf enc = some
      { out := { out with data := buf }
        encoder := enc ++ [Event.set_input_array inp,
          Event.set_output_array { out with data := buf },
          Event.dispatch (branch_task k inp out axes inverse buf s)]
        error := none } := by
  have hshape : iteration_shape inp { out with data := buf } = iteration_shape inp out := rfl
  unfold eval_cpu branch_task
  simp only [hshape, hs]
  rcases hi : inp.dtype with _ | _ | ci <;> rcases ho : out.dtype with _ | _ | co <;>
    simp [hi, ho, spec_kind] at hk ⊢ <;> subst hk <;> rfl

theorem eval_cpu_else_branch (inp out : array) (axes : List Nat) (inverse : Bool) (buf : Nat)
    (enc : List Event) {s : FloatVal}
    (hs : compute_scale (iteration_shape inp out) axes inverse = some s)
    (hk : spec_kind inp.dtype out.dtype = none) :
    eval_cpu inp out axes inverse buf enc = some
      { out := { out with data := buf }
        encoder := enc ++ [Event.set_input_array inp,
          Event.set_output_array { out with data := buf }]
        error := some unexpected_types_msg } := by
  have hshape : iteration_shape inp { out with data := buf } = iteration_shape inp out := rfl
  unfold eval_cpu
  simp only [hshape, hs]
  rcases hi : inp.dtype with _ | _ | ci <;> rcases ho : out.dtype with _ | _ | co <;>
    simp [hi, ho, spec_kind] at hk ⊢

theorem new_events_append (enc l : List Event) (out : array) (e : Option String) :
    new_events enc { out := out, encoder := enc ++ l, error := e } = l := by
  simp [new_events]

/-! ## Claims -/

/-- C1 (kind dispatch). On every defined run `eval_cpu` returns, and: the pair
(complex64, complex64) submits exactly the c2c kernel, (float32, complex64)
exactly r2c, (complex64, float32) exactly c2r, each without an error; every other
pair raises the unexpected-combination error and submits no task. The error is
raised if and only if the pair is not one of the three. -/
theorem eval_cpu_kind_dispatch (inp out : array) (axes : List Nat) (inverse : Bool)
    (buf : Nat) (enc : List Event)
    (h : inverse = true → axes_in_range (iteration_shape inp out) axes) :
    ∃ r, eval_cpu inp out axes inverse buf enc = some r ∧
      (inp.dtype = Dtype.complex64 ∧ out.dtype = Dtype.complex64 →
        r.error = none ∧
        (dispatched (new_events enc r)).map (fun c => c.call.kernel) = [Kernel.c2c]) ∧
      (inp.dtype = Dtype.float32 ∧ out.dtype = Dtype.complex64 →
        r.error = none ∧
        (dispatched (new_events enc r)).map (fun c => c.call.kernel) = [Kernel.r2c]) ∧
      (inp.dtype = Dtype.complex64 ∧ out.dtype = Dtype.float32 →
        r.error = none ∧
        (dispatched (new_events enc r)).map (fun c => c.call.kernel) = [Kernel.c2r]) ∧
      (¬ supported inp.dtype out.dtype →
        r.error = some unexpected_types_msg ∧ dispatched (new_events enc r) = []) ∧
      (r.error ≠ none ↔ ¬ supported inp.dtype out.dtype) ∧
      (dispatched (new_events enc r)).map (fun c => c.call.kernel)
        = (spec_kind inp.dtype out.dtype).toList := by
  obtain ⟨s, hs⟩ := compute_scale_defined _ axes inverse h
  cases hk : spec_kind inp.dtype out.dtype with
  | none =>
    have hns : ¬ supported inp.dtype out.dtype := (spec_kind_eq_none_iff _ _).mp hk
    refine ⟨_, eval_cpu_else_branch inp out axes inverse buf enc hs hk, ?_, ?_, ?_, ?_, ?_, ?_⟩
    · intro hp
      exact absurd (Or.inl hp) hns
    · intro hp
      exact absurd (Or.inr (Or.inl hp)) hns
    · intro hp
      exact absurd (Or.inr (Or.inr hp)) hns
    · intro _
      simp [new_events_append, dispatched]
    · simp [hns]
    · simp [new_events_append, dispatched]
  | some k =>
    have hsup : supported inp.dtype out.dtype := (spec_kind_isSome_iff _ _).mp ⟨k, hk⟩
    refine ⟨_, eval_cpu_dispatch_branch inp out axes inverse buf enc hs hk, ?_, ?_, ?_, ?_, ?_, ?_⟩
    · rintro ⟨hi, ho⟩
      rw [hi, ho] at hk
      simp only [spec_kind, Option.some.injEq] at hk
      subst hk
      simp [new_events_append, dispatched, Closure.call, branch_task]
    · rintro ⟨hi, ho⟩
      rw [hi, ho] at hk
      simp only [spec_kind, Option.some.injEq] at hk
      subst hk
      simp [new_events_append, dispatched, Closure.call, branch_task]
    · rintro ⟨hi, ho⟩
      rw [hi, ho] at hk
      simp only [spec_kind, Option.some.injEq] at hk
      subst hk
      simp [new_events_append, dispatched, Closure.call, branch_task]
    · intro hns
      exact absurd hsup hns
    · simp [hsup]
    · simp [new_events_append, dispatched, Closure.call, branch_task]

/-- C3 (iteration shape). On every defined run with a supported dtype pair the
shape handed to the kernel, which is also the shape the scale is computed from,
is the output shape when the output dtype is float32 and the input shape
otherwise, dimension for dimension; so it is the output shape for c2r and the
input shape for c2c and r2c. -/
theorem eval_cpu_iteration_shape (inp out : array) (axes : List Nat) (inverse : Bool)
    (buf : Nat) (enc : List Event)
    (h : inverse = true → axes_in_range (iteration_shape inp out) axes)
    (hsup : supported inp.dtype out.dtype) :
    ∃ r c, eval_cpu inp out axes inverse buf enc = some r ∧
      dispatched (new_events enc r) = [c] ∧
      c.call.shape = (if out.dtype = Dtype.float32 then out.shape else inp.shape) ∧
      compute_scale (if out.dtype = Dtype.float32 then out.shape else inp.shape) axes inverse
        = some c.call.fct ∧
      (c.call.kernel = Kernel.c2r → c.call.shape = out.shape) ∧
      (c.call.kernel = Kernel.c2c → c.call.shape = inp.shape) ∧
      (c.call.kernel = Kernel.r2c → c.call.shape = inp.shape) ∧
      (∀ i, c.call.shape.get? i
        = if out.dtype = Dtype.float32 then out.shape.get? i else inp.shape.get? i) := by
  obtain ⟨s, hs⟩ := compute_scale_defined _ axes inverse h
  obtain ⟨k, hk⟩ := (spec_kind_isSome_iff _ _).mpr hsup
  refine ⟨_, branch_task k inp out axes inverse buf s,
    eval_cpu_dispatch_branch inp out axes inverse buf enc hs hk, ?_, ?_, ?_, ?_, ?_, ?_, ?_⟩
  · simp [new_events_append, dispatched]
  · simp [Closure.call, iteration_shape, branch_task]
  · simpa [Closure.call, iteration_shape, branch_task] using hs
  · intro hc
    simp only [Closure.call, branch_task] at hc
    subst hc
    rcases hi : inp.dtype with _ | _ | ci <;> rcases ho : out.dtype with _ | _ | co <;>
      simp [hi, ho, spec_kind] at hk
    simp [Closure.call, iteration_shape, branch_task, ho]
  · intro hc
    simp only [Closure.call, branch_task] at hc
    subst hc
    rcases hi : inp.dtype with _ | _ | ci <;> rcases ho : out.dtype with _ | _ | co <;>
      simp [hi, ho, spec_kind] at hk
    simp [Closure.call, iteration_shape, branch_task, ho]
  · intro hc
    simp only [Closure.call, branch_task] at hc
    subst hc
    rcases hi : inp.dtype with _ | _ | ci <;> rcases ho : out.dtype with _ | _ | co <;>
      simp [hi, ho, spec_kind] at hk
    simp [Closure.call, iteration_shape, branch_task, ho]
  · intro i
    by_cases ho : out.dtype = Dtype.float32 <;>
      simp [Closure.call, iteration_shape, branch_task, ho]

/-- C5 (kernel arguments). On every defined run with a supported dtype pair the
one submitted task calls the kernel named for the pair with exactly
(iteration shape, input byte strides, output byte strides, the axes unchanged,
forward = !inverse, input pointer, output pointer, scale), and the forward flag
is true exactly when the inverse flag is false. -/
theorem eval_cpu_kernel_arguments (inp out : array) (axes : List Nat) (inverse : Bool)
    (buf : Nat) (enc : List Event)
    (h : inverse = true → axes_in_range (iteration_shape inp out) axes)
    (hsup : supported inp.dtype out.dtype) :
    ∃ k scale c, spec_kind inp.dtype out.dtype = some k ∧
      compute_scale (iteration_shape inp out) axes inverse = some scale ∧
      eval_cpu inp out axes inverse buf enc = some
        { out := { out with data := buf }
          encoder := enc ++ [Event.set_input_array inp,
            Event.set_output_array { out with data := buf }, Event.dispatch c]
          error := none } ∧
      c.call =
        { kernel := k, shape := iteration_shape inp out, stride_in := byte_strides inp,
          stride_out := byte_strides out, axes := axes, forward := !inverse,
          data_in := inp.data, data_out := buf, fct := scale } ∧
      (c.call.forward = true ↔ inverse = false) := by
  obtain ⟨s, hs⟩ := compute_scale_defined _ axes inverse h
  obtain ⟨k, hk⟩ := (spec_kind_isSome_iff _ _).mpr hsup
  refine ⟨k, s, branch_task k inp out axes inverse buf s, hk, hs,
    eval_cpu_dispatch_branch inp out axes inverse buf enc hs hk, ?_, ?_⟩
  · simp [Closure.call, branch_task]
  · cases inverse <;> simp [Closure.call, branch_task]

/-- C5 instance: the inverse transform of the half spectrum `half5` into `real8`
over axis 0. -/
theorem eval_cpu_kernel_arguments_witness :
    (true = true → axes_in_range (iteration_shape half5 real8) [0]) ∧
    supported half5.dtype real8.dtype ∧
    ∃ k scale c, spec_kind half5.dtype real8.dtype = some k ∧
      compute_scale (iteration_shape half5 real8) [0] true = some scale ∧
      eval_cpu half5 real8 [0] true 20480 [] = some
        { out := { real8 with data := 20480 }
          encoder := [] ++ [Event.set_input_array half5,
            Event.set_output_array { real8 with data := 20480 }, Event.dispatch c]
          error := none } ∧
      c.call =
        { kernel := k, shape := iteration_shape half5 real8, stride_in := byte_strides half5,
          stride_out := byte_strides real8, axes := [0], forward := !true,
          data_in := half5.data, data_out := 20480, fct := scale } ∧
      (c.call.forward = true ↔ true = false) :=
  ⟨by decide, by decide,
    eval_cpu_kernel_arguments half5 real8 [0] true 20480 [] (by decide) (by decide)⟩

/-- C9 (registration before submission). On every defined run, whatever task is
submitted has the registration of the input as read dependency and of the output
as write dependency earlier in the events of the run; and with a supported dtype
pair the events of the run are exactly: register input, register output, submit
one task. -/
theorem eval_cpu_registers_before_dispatch (inp out : array) (axes : List Nat)
    (inverse : Bool) (buf : Nat) (enc : List Event)
    (h : inverse = true → axes_in_range (iteration_shape inp out) axes) :
    ∃ r, eval_cpu inp out axes inverse buf enc = some r ∧
      (∀ (pre post : List Event) (task : Closure),
        new_events enc r = pre ++ Event.dispatch task :: post →
          Event.set_input_array inp ∈ pre ∧
          Event.set_output_array { out with data := buf } ∈ pre) ∧
      (supported inp.dtype out.dtype →
        (∃ c, r.encoder = enc ++ [Event.set_input_array inp,
            Event.set_output_array { out with data := buf }, Event.dispatch c]) ∧
        (dispatched (new_events enc r)).length = 1) := by
  obtain ⟨s, hs⟩ := compute_scale_defined _ axes inverse h
  cases hk : spec_kind inp.dtype out.dtype with
  | none =>
    have hns : ¬ supported inp.dtype out.dtype := (spec_kind_eq_none_iff _ _).mp hk
    refine ⟨_, eval_cpu_else_branch inp out axes inverse buf enc hs hk, ?_, ?_⟩
    · intro pre post task hp
      rw [new_events_append] at hp
      rcases pre with _ | ⟨p1, _ | ⟨p2, _ | ⟨p3, pre⟩⟩⟩ <;> simp at hp
    · intro hsup
      exact absurd hsup hns
  | some k =>
    refine ⟨_, eval_cpu_dispatch_branch inp out axes inverse buf enc hs hk, ?_, ?_⟩
    · intro pre post task hp
      rw [new_events_append] at hp
      rcases pre with _ | ⟨p1, _ | ⟨p2, _ | ⟨p3, pre⟩⟩⟩ <;> simp at hp
      obtain ⟨h1, h2, _⟩ := hp
      subst h1 h2
      simp
    · intro _
      exact ⟨⟨_, rfl⟩, by simp [new_events_append, dispatched]⟩

/-- C9 instance: the forward transform of `real8` into `half5` over axis 0, on
an encoder that already holds an event. -/
theorem eval_cpu_registers_before_dispatch_witness :
    (false = true → axes_in_range (iteration_shape real8 half5) [0]) ∧
    ∃ r, eval_cpu real8 half5 [0] false 20480 [Event.set_input_array grid4] = some r ∧
      (∀ (pre post : List Event) (task : Closure),
        new_events [Event.set_input_array grid4] r = pre ++ Event.dispatch task :: post →
          Event.set_input_array real8 ∈ pre ∧
          Event.set_output_array { half5 with data := 20480 } ∈ pre) ∧
      (supported real8.dtype half5.dtype →
        (∃ c, r.encoder = [Event.set_input_array grid4] ++ [Event.set_input_array real8,
            Event.set_output_array { half5 with data := 20480 }, Event.dispatch c]) ∧
        (dispatched (new_events [Event.set_input_array grid4] r)).length = 1) :=
  ⟨by decide,
    eval_cpu_registers_before_dispatch real8 half5 [0] false 20480
      [Event.set_input_array grid4] (by decide)⟩

/-- C1 instance: a float32 to float32 request, which is not supported, with the
inverse flag set. -/
theorem eval_cpu_kind_dispatch_witness :
    (true = true → axes_in_range (iteration_shape real8 real8) [0]) ∧
    ∃ r, eval_cpu real8 real8 [0] true 20480 [] = some r ∧
      r.error = some unexpected_types_msg ∧ dispatched (new_events [] r) = [] :=
  ⟨by decide, by
    obtain ⟨r, hr, _, _, _, hu, _, _⟩ :=
      eval_cpu_kind_dispatch real8 real8 [0] true 20480 [] (by decide)
    exact ⟨r, hr, hu (by decide)⟩⟩

/-- C3 instance: complex `half5` to real `real8`, inverse; the iteration shape
is the output shape `[8]`. -/
theorem eval_cpu_iteration_shape_witness :
    (true = true → axes_in_range (iteration_shape half5 real8) [0]) ∧
    supported half5.dtype real8.dtype ∧
    ∃ r c, eval_cpu half5 real8 [0] true 20480 [] = some r ∧
      dispatched (new_events [] r) = [c] ∧ c.call.shape = [8] :=
  ⟨by decide, by decide, by
    obtain ⟨r, c, hr, hd, hshape, _⟩ :=
      eval_cpu_iteration_shape half5 real8 [0] true 20480 [] (by decide) (by decide)
    exact ⟨r, c, hr, hd, by simpa [real8] using hshape⟩⟩

/-! ## Byte strides -/

theorem scale_stride_of_fits {itemsize : Nat} {s : Int} (h : stride_fits itemsize s) :
    scale_stride itemsize s = s * (itemsize : Int) := by
  unfold scale_stride
  rw [ofNat_mul_size_t]
  unfold stride_fits at h
  unfold to_ptrdiff_t
  generalize s * (itemsize : Int) = z at h ⊢
  omega

theorem scale_stride_wraps (itemsize : Nat) (s : Int) :
    scale_stride itemsize s = to_ptrdiff_t (s * (itemsize : Int)) := by
  unfold scale_stride
  rw [ofNat_mul_size_t]
  unfold to_ptrdiff_t
  generalize s * (itemsize : Int) = z
  omega

/-- C4 (stride correctness). The byte-stride vector has one entry per element
stride, in the same order; entry `i` is the product of element stride `i` and the
item size, brought into `std::ptrdiff_t`, hence exactly element stride times item
size for every dimension whose byte stride is representable in `std::ptrdiff_t`,
zero and negative strides included; and its length is the length of the shape
whenever the array has as many strides as dimensions. -/
theorem byte_strides_pointwise (a : array) :
    (byte_strides a).length = a.strides.length ∧
    (a.shape.length = a.strides.length → (byte_strides a).length = a.shape.length) ∧
    (∀ (i : Nat) (s : Int), a.strides[i]? = some s →
      (byte_strides a)[i]? = some (to_ptrdiff_t (s * (a.itemsize : Int)))) ∧
    (∀ (i : Nat) (s : Int), a.strides[i]? = some s → stride_fits a.itemsize s →
      (byte_strides a)[i]? = some (s * (a.itemsize : Int))) ∧
    ((∀ s ∈ a.strides, stride_fits a.itemsize s) →
      byte_strides a = a.strides.map (fun s => s * (a.itemsize : Int))) := by
  refine ⟨by simp [byte_strides], ?_, ?_, ?_, ?_⟩
  · intro h
    simp [byte_strides, h]
  · intro i s hi
    simp [byte_strides, hi, scale_stride_wraps]
  · intro i s hi hf
    simp [byte_strides, hi, scale_stride_of_fits hf]
  · intro h
    unfold byte_strides
    apply List.map_congr_left
    intro s hs
    exact scale_stride_of_fits (h s hs)

/-- C4 instance: the view `view4` with strides `[-4, 0]` and item size 8 has byte
strides `[-32, 0]`. -/
theorem byte_strides_pointwise_witness :
    (∀ s ∈ view4.strides, stride_fits view4.itemsize s) ∧
    byte_strides view4 = [-32, 0] ∧ (byte_strides view4).length = view4.shape.length :=
  ⟨by decide, by
    have h := byte_strides_pointwise view4
    refine ⟨?_, h.2.1 (by decide)⟩
    rw [h.2.2.2.2 (by decide)]
    decide⟩

/-! ## Divisor and scale -/

/-- C10 (divisor width). For axes inside the shape, `nelem` is the product of the
listed dimensions reduced modulo `2^32`, read as a signed 32-bit value and
widened to 64 bits unsigned; it is the true product when that product is below
`2^31`; it does not depend on the order of the axes; and an axis listed `k` times
contributes its dimension `k` times. -/
theorem compute_nelem_truncates (shape axes : List Nat) (h : axes_in_range shape axes) :
    compute_nelem shape axes = some (spec_truncate (axes_product shape axes)) ∧
    (axes_product shape axes < 2147483648 →
      compute_nelem shape axes = some (axes_product shape axes)) ∧
    (∀ axes2 : List Nat, axes2.Perm axes →
      compute_nelem shape axes2 = compute_nelem shape axes) ∧
    (∀ y k, y ∈ axes →
      compute_nelem shape (List.replicate k y) = some (spec_truncate ((shape.getD y 0) ^ k))) := by
  refine ⟨compute_nelem_eq shape axes h, ?_, ?_, ?_⟩
  · intro hlt
    rw [compute_nelem_eq shape axes h, spec_truncate_of_lt hlt]
  · intro axes2 hp
    have h2 : ∀ y ∈ axes2, y < shape.length := fun y hy => h y (hp.subset hy)
    rw [compute_nelem_eq shape axes h, compute_nelem_eq shape axes2 h2,
      axes_product_perm shape hp]
  · intro y k hy
    have hk : ∀ z ∈ List.replicate k y, z < shape.length := by
      intro z hz
      rw [List.eq_of_mem_replicate hz]
      exact h y hy
    rw [compute_nelem_eq shape _ hk, axes_product_replicate]

/-- C10 instance: shape `[65536, 32768]` over axes `[0, 1]`; the product `2^31`
becomes `2^64 - 2^31`. -/
theorem compute_nelem_truncates_witness :
    axes_in_range [65536, 32768] [0, 1] ∧
    compute_nelem [65536, 32768] [0, 1] = some 18446744071562067968 ∧
    compute_nelem [65536, 32768] [1, 0] = compute_nelem [65536, 32768] [0, 1] :=
  ⟨by decide, by
    have h := compute_nelem_truncates [65536, 32768] [0, 1] (by decide)
    refine ⟨?_, h.2.2.1 [1, 0] (List.Perm.swap 0 1 [])⟩
    rw [h.1]
    decide⟩

theorem axes_product_pos (shape axes : List Nat) (h : ∀ y ∈ axes, 0 < shape.getD y 0) :
    0 < axes_product shape axes := by
  unfold axes_product
  apply List.prod_pos
  intro d hd
  obtain ⟨y, hy, rfl⟩ := List.mem_map.mp hd
  exact h y hy

theorem compute_scale_inverse_small (shape axes : List Nat) (hr : axes_in_range shape axes)
    (hpos : 0 < axes_product shape axes) (hlt : axes_product shape axes < 2147483648) :
    compute_scale shape axes true
      = some (FloatVal.real (1 / (axes_product shape axes : ℚ))) := by
  rw [compute_scale_inverse shape axes hr, spec_truncate_of_lt hlt, div_size_t_one_of_pos hpos]

theorem compute_scale_inverse_scenarios :
    compute_scale (iteration_shape half5 real8) [0] true = some (FloatVal.real (1 / 8)) ∧
    compute_scale (iteration_shape grid4 grid4) [0, 1] true = some (FloatVal.real (1 / 16)) := by
  constructor
  · rw [compute_scale_inverse_small _ _ (by decide) (by decide) (by decide)]
    have h : axes_product (iteration_shape half5 real8) [0] = 8 := by decide
    rw [h]
    norm_num
  · rw [compute_scale_inverse_small _ _ (by decide) (by decide) (by decide)]
    have h : axes_product (iteration_shape grid4 grid4) [0, 1] = 16 := by decide
    rw [h]
    norm_num

/-- C2 (scale of an inverse transform), evaluated on a 65536 x 32768 complex
array over axes `[0, 1]`: the listed dimensions multiply to `2^31`, the divisor
computed is `2^64 - 2^31`, and the scale handed to the kernel is
`1 / (2^64 - 2^31)`, not `1 / 2^31`. -/
theorem eval_cpu_inverse_scale_at_big :
    axes_in_range (iteration_shape big big) [0, 1] ∧
    axes_product (iteration_shape big big) [0, 1] = 2147483648 ∧
    compute_nelem (iteration_shape big big) [0, 1] = some 18446744071562067968 ∧
    eval_cpu big big [0, 1] true 8192 [] = some
      { out := { big with data := 8192 }
        encoder := [Event.set_input_array big,
          Event.set_output_array { big with data := 8192 },
          Event.dispatch (branch_task Kernel.c2c big big [0, 1] true 8192
            (FloatVal.real (1 / 18446744071562067968)))]
        error := none } ∧
    FloatVal.real (1 / 18446744071562067968)
      ≠ FloatVal.real (1 / ((axes_product (iteration_shape big big) [0, 1] : Nat) : ℚ)) := by
  have hn : compute_nelem (iteration_shape big big) [0, 1] = some 18446744071562067968 := by
    decide
  have hp : axes_product (iteration_shape big big) [0, 1] = 2147483648 := by decide
  have hs : compute_scale (iteration_shape big big) [0, 1] true
      = some (FloatVal.real (1 / 18446744071562067968)) := by
    simp [compute_scale, hn, FloatVal.div_size_t]
  refine ⟨by decide, hp, hn, ?_, ?_⟩
  · have hk : spec_kind big.dtype big.dtype = some Kernel.c2c := by decide
    simpa using eval_cpu_dispatch_branch big big [0, 1] true 8192 [] hs hk
  · rw [hp]
    intro hq
    injection hq with hq
    norm_num at hq

/-- C6 (forward scale). For a forward transform the scale is exactly 1 whatever
the arrays and axes: the run is defined, every task it submits gets scale 1 and
forward = true. In a round trip, real-to-complex forward and then
complex-to-real inverse on the same encoder, the forward task has scale 1 and
the inverse task has scale 1 divided by its divisor `nelem`, which is `1 / N`
for a product `N` of the listed real dimensions with `0 < N < 2^31`: the
normalisation is applied by the inverse step alone. -/
theorem eval_cpu_forward_scale (inp out : array) (axes : List Nat) (buf : Nat)
    (enc : List Event) :
    compute_scale (iteration_shape inp out) axes false = some (FloatVal.real 1) ∧
    (∃ r, eval_cpu inp out axes false buf enc = some r ∧
      ∀ c ∈ dispatched (new_events enc r),
        c.call.fct = FloatVal.real 1 ∧ c.call.forward = true) ∧
    (supported inp.dtype out.dtype →
      ∃ r c, eval_cpu inp out axes false buf enc = some r ∧
        dispatched (new_events enc r) = [c] ∧ c.call.fct = FloatVal.real 1) ∧
    (∀ (back : array) (buf2 : Nat),
      inp.dtype = Dtype.float32 → out.dtype = Dtype.complex64 →
      back.dtype = Dtype.float32 → axes_in_range back.shape axes →
      ∃ r1 c1 r2 c2 n,
        eval_cpu inp out axes false buf enc = some r1 ∧
        dispatched (new_events enc r1) = [c1] ∧
        c1.call.kernel = Kernel.r2c ∧ c1.call.fct = FloatVal.real 1 ∧
        eval_cpu r1.out back axes true buf2 r1.encoder = some r2 ∧
        dispatched (new_events r1.encoder r2) = [c2] ∧
        c2.call.kernel = Kernel.c2r ∧
        compute_nelem back.shape axes = some n ∧
        c2.call.fct = FloatVal.div_size_t (FloatVal.real 1) n ∧
        (0 < axes_product back.shape axes → axes_product back.shape axes < 2147483648 →
          c2.call.fct = FloatVal.real (1 / (axes_product back.shape axes : ℚ)))) := by
  have hs := compute_scale_forward (iteration_shape inp out) axes
  refine ⟨hs, ?_, ?_, ?_⟩
  · cases hk : spec_kind inp.dtype out.dtype with
    | none =>
      refine ⟨_, eval_cpu_else_branch inp out axes false buf enc hs hk, ?_⟩
      simp [new_events_append, dispatched]
    | some k =>
      refine ⟨_, eval_cpu_dispatch_branch inp out axes false buf enc hs hk, ?_⟩
      simp [new_events_append, dispatched, Closure.call, branch_task]
  · intro hsup
    obtain ⟨k, hk⟩ := (spec_kind_isSome_iff _ _).mpr hsup
    refine ⟨_, branch_task k inp out axes false buf (FloatVal.real 1),
      eval_cpu_dispatch_branch inp out axes false buf enc hs hk, ?_, ?_⟩
    · simp [new_events_append, dispatched]
    · simp [Closure.call, branch_task]
  · intro back buf2 hi ho hb hr
    have hk1 : spec_kind inp.dtype out.dtype = some Kernel.r2c := by
      rw [hi, ho]
      rfl
    have hshape : iteration_shape { out with data := buf } back = back.shape := by
      simp [iteration_shape, hb]
    have hk2 : spec_kind ({ out with data := buf } : array).dtype back.dtype
        = some Kernel.c2r := by
      simp only [ho, hb]
      rfl
    have hn := compute_nelem_eq back.shape axes hr
    have hs2 : compute_scale (iteration_shape { out with data := buf } back) axes true
        = some (FloatVal.div_size_t (FloatVal.real 1)
            (spec_truncate (axes_product back.shape axes))) := by
      rw [hshape]
      exact compute_scale_inverse back.shape axes hr
    have e1 := eval_cpu_dispatch_branch inp out axes false buf enc hs hk1
    have e2 := eval_cpu_dispatch_branch { out with data := buf } back axes true buf2
      (enc ++ [Event.set_input_array inp, Event.set_output_array { out with data := buf },
        Event.dispatch (branch_task Kernel.r2c inp out axes false buf (FloatVal.real 1))])
      hs2 hk2
    refine ⟨_, branch_task Kernel.r2c inp out axes false buf (FloatVal.real 1), _,
      branch_task Kernel.c2r { out with data := buf } back axes true buf2
        (FloatVal.div_size_t (FloatVal.real 1) (spec_truncate (axes_product back.shape axes))),
      spec_truncate (axes_product back.shape axes), e1, ?_, ?_, ?_, e2, ?_, ?_, hn, ?_, ?_⟩
    · simp [new_events_append, dispatched]
    · simp [Closure.call, branch_task]
    · simp [Closure.call, branch_task]
    · simp only [new_events_append, dispatched]
    · simp [Closure.call, branch_task]
    · simp [Closure.call, branch_task]
    · intro hpos hlt
      simp only [Closure.call, branch_task]
      rw [spec_truncate_of_lt hlt, div_size_t_one_of_pos hpos]

/-- C6 instance: `real8` forward into `half5` over axis 0, then back into a
length-8 real array: scales 1 and 1/8. -/
theorem eval_cpu_forward_scale_witness :
    supported real8.dtype half5.dtype ∧
    axes_in_range real8.shape [0] ∧
    ∃ r1 c1 r2 c2,
      eval_cpu real8 half5 [0] false 20480 [] = some r1 ∧
      dispatched (new_events [] r1) = [c1] ∧ c1.call.fct = FloatVal.real 1 ∧
      eval_cpu r1.out real8 [0] true 24576 r1.encoder = some r2 ∧
      dispatched (new_events r1.encoder r2) = [c2] ∧
      c2.call.fct = FloatVal.real (1 / 8) :=
  ⟨by decide, by decide, by
    obtain ⟨r1, c1, r2, c2, n, h1, hd1, _, hf1, h2, hd2, _, _, _, hsmall⟩ :=
      (eval_cpu_forward_scale real8 half5 [0] 20480 []).2.2.2 real8 24576 rfl rfl rfl
        (by decide)
    refine ⟨r1, c1, r2, c2, h1, hd1, hf1, h2, hd2, ?_⟩
    have h8 : axes_product real8.shape [0] = 8 := by decide
    have := hsmall (by decide) (by decide)
    rw [h8] at this
    simpa using this⟩

/-- C7, as stated, fails on an array with a dimension of size zero: the inverse
transform of `empty0` over axis 0 divides `1.0f` by zero, so the scale handed to
the kernel is positive infinity and not a positive real. -/
theorem eval_cpu_scale_at_zero_dim :
    axes_in_range (iteration_shape empty0 empty0) [0] ∧
    compute_scale (iteration_shape empty0 empty0) [0] true = some FloatVal.posInf ∧
    eval_cpu empty0 empty0 [0] true 8192 [] = some
      { out := { empty0 with data := 8192 }
        encoder := [Event.set_input_array empty0,
          Event.set_output_array { empty0 with data := 8192 },
          Event.dispatch (branch_task Kernel.c2c empty0 empty0 [0] true 8192 FloatVal.posInf)]
        error := none } ∧
    ¬ ∃ q : ℚ, 0 < q ∧
      compute_scale (iteration_shape empty0 empty0) [0] true = some (FloatVal.real q) := by
  have hn : compute_nelem (iteration_shape empty0 empty0) [0] = some 0 := by decide
  have hs : compute_scale (iteration_shape empty0 empty0) [0] true = some FloatVal.posInf := by
    simp [compute_scale, hn, FloatVal.div_size_t]
  refine ⟨by decide, hs, ?_, ?_⟩
  · have hk : spec_kind empty0.dtype empty0.dtype = some Kernel.c2c := by decide
    simpa using eval_cpu_dispatch_branch empty0 empty0 [0] true 8192 [] hs hk
  · rintro ⟨q, _, hq⟩
    rw [hs] at hq
    simp at hq

/-- C7, amended. The scale of a forward plan is 1, a strictly positive real,
whatever the arrays and axes. The scale of an inverse plan is a strictly positive
real when the axes are indices of the iteration shape, every listed dimension is
at least 1 and the product of the listed dimensions is below `2^31`. In both
cases it is the scale of every task the run submits. -/
theorem compute_scale_pos (inp out : array) (axes : List Nat) (inverse : Bool)
    (buf : Nat) (enc : List Event)
    (hr : inverse = true → axes_in_range (iteration_shape inp out) axes)
    (hpos : inverse = true → ∀ y ∈ axes, 0 < (iteration_shape inp out).getD y 0)
    (hlt : inverse = true → axes_product (iteration_shape inp out) axes < 2147483648) :
    ∃ q : ℚ, 0 < q ∧
      compute_scale (iteration_shape inp out) axes inverse = some (FloatVal.real q) ∧
      ∃ r, eval_cpu inp out axes inverse buf enc = some r ∧
        ∀ c ∈ dispatched (new_events enc r), c.call.fct = FloatVal.real q := by
  have key : ∃ q : ℚ, 0 < q ∧
      compute_scale (iteration_shape inp out) axes inverse = some (FloatVal.real q) := by
    cases inverse with
    | false => exact ⟨1, by norm_num, compute_scale_forward _ axes⟩
    | true =>
      have hp := axes_product_pos _ axes (hpos rfl)
      refine ⟨1 / (axes_product (iteration_shape inp out) axes : ℚ), ?_,
        compute_scale_inverse_small _ axes (hr rfl) hp (hlt rfl)⟩
      have : (0 : ℚ) < (axes_product (iteration_shape inp out) axes : ℚ) := by
        exact_mod_cast hp
      positivity
  obtain ⟨q, hq, hs⟩ := key
  refine ⟨q, hq, hs, ?_⟩
  cases hk : spec_kind inp.dtype out.dtype with
  | none =>
    refine ⟨_, eval_cpu_else_branch inp out axes inverse buf enc hs hk, ?_⟩
    simp [new_events_append, dispatched]
  | some k =>
    refine ⟨_, eval_cpu_dispatch_branch inp out axes inverse buf enc hs hk, ?_⟩
    simp [new_events_append, dispatched, Closure.call, branch_task]

/-- C7 instance: the 4 x 4 complex array over axes `[0, 1]`, inverse. -/
theorem compute_scale_pos_witness :
    (true = true → axes_in_range (iteration_shape grid4 grid4) [0, 1]) ∧
    (true = true → ∀ y ∈ [0, 1], 0 < (iteration_shape grid4 grid4).getD y 0) ∧
    (true = true → axes_product (iteration_shape grid4 grid4) [0, 1] < 2147483648) ∧
    ∃ q : ℚ, 0 < q ∧
      compute_scale (iteration_shape grid4 grid4) [0, 1] true = some (FloatVal.real q) ∧
      ∃ r, eval_cpu grid4 grid4 [0, 1] true 20480 [] = some r ∧
        ∀ c ∈ dispatched (new_events [] r), c.call.fct = FloatVal.real q :=
  ⟨by decide, by decide, by decide,
    compute_scale_pos grid4 grid4 [0, 1] true 20480 [] (by decide) (by decide) (by decide)⟩

/-- C8, as stated, fails: the two different unsupported dtype pairs
(float32, float32) and (other 0, float32) raise errors with the same message. -/
theorem eval_cpu_same_message_for_two_pairs :
    ¬ supported real8.dtype real8.dtype ∧ ¬ supported other8.dtype real8.dtype ∧
    (real8.dtype, real8.dtype) ≠ (other8.dtype, real8.dtype) ∧
    (eval_cpu real8 real8 [0] false 8192 []).map (fun r => r.error)
      = some (some unexpected_types_msg) ∧
    (eval_cpu other8 real8 [0] false 8192 []).map (fun r => r.error)
      = some (some unexpected_types_msg) := by
  refine ⟨by decide, by decide, by decide, ?_, ?_⟩
  · rw [eval_cpu_else_branch real8 real8 [0] false 8192 []
      (compute_scale_forward _ _) (by decide)]
    rfl
  · rw [eval_cpu_else_branch other8 real8 [0] false 8192 []
      (compute_scale_forward _ _) (by decide)]
    rfl

/-- C8, amended. On every defined run with a dtype pair outside the three
supported ones the error raised carries the fixed text
"[FFT] Received unexpected input and output type combination.", whatever the
pair is. -/
theorem eval_cpu_unsupported_message (inp out : array) (axes : List Nat) (inverse : Bool)
    (buf : Nat) (enc : List Event)
    (h : inverse = true → axes_in_range (iteration_shape inp out) axes)
    (hns : ¬ supported inp.dtype out.dtype) :
    ∃ r, eval_cpu inp out axes inverse buf enc = some r ∧
      r.error = some "[FFT] Received unexpected input and output type combination." := by
  obtain ⟨s, hs⟩ := compute_scale_defined _ axes inverse h
  exact ⟨_, eval_cpu_else_branch inp out axes inverse buf enc hs
    ((spec_kind_eq_none_iff _ _).mpr hns), rfl⟩

/-- C8 instance: an array of another element type transformed into `real8`. -/
theorem eval_cpu_unsupported_message_witness :
    (true = true → axes_in_range (iteration_shape other8 real8) [0]) ∧
    ¬ supported other8.dtype real8.dtype ∧
    ∃ r, eval_cpu other8 real8 [0] true 8192 [] = some r ∧
      r.error = some "[FFT] Received unexpected input and output type combination." :=
  ⟨by decide, by decide,
    eval_cpu_unsupported_message other8 real8 [0] true 8192 [] (by decide) (by decide)⟩

end mlx.core
